import Mathlib

/-!
Verification of the `OntoAttentionLSTM` layer (`onto_attention.py`).

The per-(sample, timestep) step computation `_step` is embedded shallowly:
every tensor operation is modelled per sample (all source operations are
elementwise or batched over the sample axis, so one sample captures the
whole computation).  Sizes: `num_senses = S + 1`, `num_hyps = H + 1`,
`embedding_dim = D`, `output_dim = O`; a step input slice has shape
(senses, hyps, embedding_dim + 1), the trailing scalar of every row being
the sense-prior parameter.  Machine floats are idealised as rationals; the
backend functions `K.exp` / `K.sigmoid` and the fuzz factor `K.epsilon()`
are abstracted as a `Backend` record, with the analytic facts the proofs
need about the exponential (positivity, strict monotonicity) taken as
hypotheses, and concrete computable surrogates supplied for evaluation.
-/

namespace OntoLSTM

/-- Per-slot input rows at one (sample, timestep): `x_onto_aware` inside
`_step`, of shape (senses, hyps, embedding_dim + 1). -/
abbrev Input (S H D : ℕ) := Fin (S + 1) → Fin (H + 1) → Fin (D + 1) → ℚ

/-- Per-slot boolean mask at one (sample, timestep): `mask_i` (= `states[-1]`)
with its trailing singleton axis squeezed away. -/
abbrev Mask (S H : ℕ) := Fin (S + 1) → Fin (H + 1) → Bool

/-- Attention parameters created in `build` when `use_attention` is set:
`input_hyp_projector`, `context_hyp_projector` and `hyp_scorer`. -/
structure AttnWeights (D O : ℕ) where
  input_hyp_projector : Fin D → Fin O → ℚ
  context_hyp_projector : Fin O → Fin O → ℚ
  hyp_scorer : Fin O → ℚ

/-- Abstraction of the Keras backend pieces `_step` uses: `K.exp`,
`K.sigmoid` and the fuzz factor `K.epsilon()`.  The real backend
instantiates `exp` with the exponential function, `sigmoid` with the
logistic function and `epsilon` with `1e-7`. -/
structure Backend where
  exp : ℚ → ℚ
  sigmoid : ℚ → ℚ
  epsilon : ℚ

/-- Numeric value of a mask bit (the backend mask is a 0/1 float tensor). -/
def bit (b : Bool) : ℚ := if b then 1 else 0

/-- Line 79: `x_synset_embeddings = x_onto_aware[:,:,:,:-1]`, the first
`embedding_dim` scalars of every (sense, hyp) row. -/
def x_synset_embeddings (x : Input S H D) (s : Fin (S + 1)) (h : Fin (H + 1))
    (i : Fin D) : ℚ :=
  x s h i.castSucc

/-- Line 83: `sense_parameters = x_onto_aware[:, 0, 0, -1]`, the sense-prior
scalar read from the canonical (sense 0, hyp 0) position. -/
def sense_parameters (x : Input S H D) : ℚ := x 0 0 (Fin.last D)

/-- Lines 85–89: the raw sense score `lam * exp(-lam * k)` at integer sense
rank `k` (the expanded index matrix `K.dot(ones, sense_indices)` has entry
`1 * k = k` in every sample row). -/
def raw_sense_score (B : Backend) (lam : ℚ) (k : ℕ) : ℚ :=
  lam * B.exp (-(lam * (k : ℚ)))

/-- Line 92: `sense_mask = K.sum(K.squeeze(mask_i, axis=-1), axis=2)`, the
per-sense sum of mask bits over the hyp axis. -/
def sense_mask (m : Mask S H) (s : Fin (S + 1)) : ℚ := ∑ h, bit (m s h)

/-- Lines 89–93: sense scores, zeroed by `K.switch(sense_mask, scores, 0)`
where the summed mask row is zero (`K.switch` keeps the value where its
condition is nonzero).  Without a mask no zeroing happens. -/
def sense_scores (B : Backend) (x : Input S H D) (mi : Option (Mask S H))
    (k : Fin (S + 1)) : ℚ :=
  match mi with
  | none => raw_sense_score B (sense_parameters x) k
  | some m => if sense_mask m k ≠ 0 then raw_sense_score B (sense_parameters x) k else 0

/-- Line 94: `sense_probabilities = sense_scores / (sum + epsilon)`. -/
def sense_probabilities (B : Backend) (x : Input S H D) (mi : Option (Mask S H))
    (k : Fin (S + 1)) : ℚ :=
  sense_scores B x mi k / ((∑ j, sense_scores B x mi j) + B.epsilon)

/-- Line 99: `K.dot(x_synset_embeddings, self.input_hyp_projector)`. -/
def input_hyp_projection (w : AttnWeights D O) (x : Input S H D)
    (s : Fin (S + 1)) (h : Fin (H + 1)) (j : Fin O) : ℚ :=
  ∑ i, x_synset_embeddings x s h i * w.input_hyp_projector i j

/-- Line 100: `K.dot(h_tm1, self.context_hyp_projector)`. -/
def context_hyp_projection (w : AttnWeights D O) (h_tm1 : Fin O → ℚ)
    (j : Fin O) : ℚ :=
  ∑ i, h_tm1 i * w.context_hyp_projector i j

/-- Line 104: broadcast-add of the context projection to every (sense, hyp)
projected embedding, then the saturating nonlinearity. -/
def hyp_projection (B : Backend) (w : AttnWeights D O) (x : Input S H D)
    (h_tm1 : Fin O → ℚ) (s : Fin (S + 1)) (h : Fin (H + 1)) (j : Fin O) : ℚ :=
  B.sigmoid (input_hyp_projection w x s h j + context_hyp_projection w h_tm1 j)

/-- Line 105: `K.dot(hyp_projection, self.hyp_scorer)`, one scalar per
(sense, hyp) cell. -/
def hyp_scores (B : Backend) (w : AttnWeights D O) (x : Input S H D)
    (h_tm1 : Fin O → ℚ) (s : Fin (S + 1)) (h : Fin (H + 1)) : ℚ :=
  ∑ j, hyp_projection B w x h_tm1 s h j * w.hyp_scorer j

/-- Lines 106–107: `K.switch(K.squeeze(mask_i, -1), hyp_scores, 0)` — a
masked cell's score is replaced by zero before the softmax. -/
def masked_hyp_scores (B : Backend) (w : AttnWeights D O) (x : Input S H D)
    (h_tm1 : Fin O → ℚ) (mi : Option (Mask S H)) (s : Fin (S + 1))
    (h : Fin (H + 1)) : ℚ :=
  match mi with
  | none => hyp_scores B w x h_tm1 s h
  | some m => if m s h then hyp_scores B w x h_tm1 s h else 0

/-- Backend softmax over a flat vector (`K.softmax`), written with the
backend's exponential: `exp (v i) / Σ exp (v j)`. -/
def softmax (B : Backend) {n : ℕ} (v : Fin n → ℚ) (i : Fin n) : ℚ :=
  B.exp (v i) / ∑ j, B.exp (v j)

/-- Line 110: `K.batch_flatten`, flattening the (sense, hyp) grid of one
sample into a single vector (indexed through the product equivalence). -/
def flatten_grid (g : Fin (S + 1) → Fin (H + 1) → ℚ)
    (i : Fin ((S + 1) * (H + 1))) : ℚ :=
  g (finProdFinEquiv.symm i).1 (finProdFinEquiv.symm i).2

/-- Lines 96–116: the hypernym attention grid.  Learned mode
(`use_attention=True`) applies one softmax jointly over the flattened grid
of masked scores and reshapes back; uniform mode scores every cell 1
(`K.ones_like(...)[:,:,:,0]`) and zeroes masked cells. -/
def hyp_attention (B : Backend) (useAtt : Bool) (w : AttnWeights D O)
    (x : Input S H D) (h_tm1 : Fin O → ℚ) (mi : Option (Mask S H))
    (s : Fin (S + 1)) (h : Fin (H + 1)) : ℚ :=
  if useAtt then
    softmax B (flatten_grid (masked_hyp_scores B w x h_tm1 mi)) (finProdFinEquiv (s, h))
  else
    match mi with
    | none => 1
    | some m => if m s h then 1 else 0

/-- Line 119: renormalisation within each sense,
`hyp_attention / (K.sum(hyp_attention, axis=2) + epsilon)` = p(hyp | sense). -/
def hyp_given_sense_attention (B : Backend) (useAtt : Bool) (w : AttnWeights D O)
    (x : Input S H D) (h_tm1 : Fin O → ℚ) (mi : Option (Mask S H))
    (s : Fin (S + 1)) (h : Fin (H + 1)) : ℚ :=
  hyp_attention B useAtt w x h_tm1 mi s h /
    ((∑ h2, hyp_attention B useAtt w x h_tm1 mi s h2) + B.epsilon)

/-- Line 121: the joint attention grid `p(hyp | sense) * p(sense)`. -/
def sense_hyp_attention (B : Backend) (useAtt : Bool) (w : AttnWeights D O)
    (x : Input S H D) (h_tm1 : Fin O → ℚ) (mi : Option (Mask S H))
    (s : Fin (S + 1)) (h : Fin (H + 1)) : ℚ :=
  hyp_given_sense_attention B useAtt w x h_tm1 mi s h * sense_probabilities B x mi s

/-- Lines 123–126: `K.switch(mask_i, x_synset_embeddings, 0)`, zeroing the
embeddings of masked slots. -/
def masked_embeddings (x : Input S H D) (mi : Option (Mask S H))
    (s : Fin (S + 1)) (h : Fin (H + 1)) (i : Fin D) : ℚ :=
  match mi with
  | none => x_synset_embeddings x s h i
  | some m => if m s h then x_synset_embeddings x s h i else 0

/-- Lines 128–130: the effective input vector, the attention-weighted sum of
the (masked) embeddings over the sense and hyp axes. -/
def lstm_input_t (B : Backend) (useAtt : Bool) (w : AttnWeights D O)
    (x : Input S H D) (h_tm1 : Fin O → ℚ) (mi : Option (Mask S H))
    (i : Fin D) : ℚ :=
  ∑ s, ∑ h,
    masked_embeddings x mi s h i * sense_hyp_attention B useAtt w x h_tm1 mi s h

/-- Collaborator contract of the wrapped LSTM step (`super().step` at line
132): a pure function from (input, previous hidden, previous cell) to
(new hidden, new cell). -/
abbrev Cell (D O : ℕ) := (Fin D → ℚ) → (Fin O → ℚ) → (Fin O → ℚ) →
  (Fin O → ℚ) × (Fin O → ℚ)

/-- Result triple of `_step` (line 134): new hidden state, new cell state and
the joint attention grid. -/
structure StepResult (S H O : ℕ) where
  h : Fin O → ℚ
  c : Fin O → ℚ
  att : Fin (S + 1) → Fin (H + 1) → ℚ

/-- Lines 71–134: `_step`, combining the joint attention, the effective input
vector and the collaborator LSTM cell update. -/
def onto_step (cell : Cell D O) (B : Backend) (useAtt : Bool)
    (w : AttnWeights D O) (x : Input S H D) (h_tm1 c_tm1 : Fin O → ℚ)
    (mi : Option (Mask S H)) : StepResult S H O :=
  let inp := lstm_input_t B useAtt w x h_tm1 mi
  let hc := cell inp h_tm1 c_tm1
  ⟨hc.1, hc.2, sense_hyp_attention B useAtt w x h_tm1 mi⟩

/-- Per-timestep emitted output of `step`: a hidden vector, or the joint
attention grid when `return_attention` is set. -/
inductive StepOutput (S H O : ℕ) where
  | hidden (h : Fin O → ℚ)
  | attention (a : Fin (S + 1) → Fin (H + 1) → ℚ)

/-- Lines 136–141: `step`, emitting either the attention grid or the hidden
vector, and always carrying `[h, c]` as the new state. -/
def step (cell : Cell D O) (B : Backend) (useAtt returnAtt : Bool)
    (w : AttnWeights D O) (x : Input S H D) (h_tm1 c_tm1 : Fin O → ℚ)
    (mi : Option (Mask S H)) :
    StepOutput S H O × ((Fin O → ℚ) × (Fin O → ℚ)) :=
  let r := onto_step cell B useAtt w x h_tm1 c_tm1 mi
  (if returnAtt then .attention r.att else .hidden r.h, (r.h, r.c))

/-- Modelled from the spec: §4.5 SequenceDriver (`changing_ndim_rnn` from
`keras_extensions`, which is not under src/) iterates the step function over
the timesteps, threading the carried (hidden, cell) state; this definition
collects the carried state after every timestep. -/
def carried_states (cell : Cell D O) (B : Backend) (useAtt returnAtt : Bool)
    (w : AttnWeights D O) (xs : List (Input S H D × Option (Mask S H)))
    (h0 c0 : Fin O → ℚ) : List ((Fin O → ℚ) × (Fin O → ℚ)) :=
  List.scanl (fun hc xm => (step cell B useAtt returnAtt w xm.1 hc.1 hc.2 xm.2).2)
    (h0, c0) xs

/-- Lines 150–158: `compute_mask` per (sample, timestep) entry — when
returning sequences with a mask supplied, the reduced output-mask entry is
`K.sum(mask, axis=(-3, -2))`, the sum of the mask bits over the sense and
hyp axes; otherwise the output mask is `None`. -/
def reduced_mask_entry (m : Mask S H) : ℚ := ∑ s, ∑ h, bit (m s h)

/-- Lines 150–158: `compute_mask` with its `return_sequences` guard. -/
def compute_mask (returnSequences : Bool) (mi : Option (Mask S H)) : Option ℚ :=
  match returnSequences, mi with
  | true, some m => some (reduced_mask_entry m)
  | true, none => none
  | false, _ => none

/-- Construction-time configuration relevant to `build`. -/
structure OntoConfig where
  output_dim : ℕ
  num_senses : ℕ
  num_hyps : ℕ
  use_attention : Bool
deriving DecidableEq

/-- Error type a build-time configuration check would report with. -/
inductive BuildError where
  | configError
deriving DecidableEq

/-- Data `build` derives: the input dim read off the shape, the stored input
spec shape, and the shapes of the attention weights when `use_attention`. -/
structure BuildResult where
  input_dim : ℕ
  input_spec_shape : ℕ × ℕ × ℕ × ℕ × ℕ
  attention_weight_shapes : Option ((ℕ × ℕ) × (ℕ × ℕ) × ℕ)
deriving DecidableEq

/-- Lines 35–47: `build`.  It records the given shape as the input spec,
derives `input_dim = input_shape[4] - 1`, builds the LSTM weights and the
attention weights; it never compares the configured `num_senses` /
`num_hyps` with the shape and raises no error. -/
def build (cfg : OntoConfig) (input_shape : ℕ × ℕ × ℕ × ℕ × ℕ) :
    Except BuildError BuildResult :=
  let input_dim := input_shape.2.2.2.2 - 1
  Except.ok
    { input_dim := input_dim
      input_spec_shape := input_shape
      attention_weight_shapes :=
        if cfg.use_attention then
          some ((input_dim, cfg.output_dim), (cfg.output_dim, cfg.output_dim),
            cfg.output_dim)
        else none }

/-- Result of the `consume_less` handling in `__init__`. -/
structure InitResult where
  consume_less : String
  warned : Bool
deriving DecidableEq

/-- Lines 28–33: the `consume_less` handling in `__init__` — a total function
(no exception): `"cpu"` is downgraded to `"mem"` with a warning, anything
else is kept unchanged with no warning. -/
def init_consume_less (requested : String) : InitResult :=
  if requested == "cpu" then ⟨"mem", true⟩ else ⟨requested, false⟩

/-- Attention pipeline written from the spec's words (claim C3): project each
hypernym embedding by the input-projection matrix, add the hidden-state
projection broadcast over all cells, apply the sigmoid, score by dot product
with the scoring vector, zero masked cells' scores, and apply one normalised
exponential jointly over all (sense, hyp) cells. -/
def hyp_attention_spec (B : Backend) (w : AttnWeights D O) (x : Input S H D)
    (h_tm1 : Fin O → ℚ) (mi : Option (Mask S H)) (s : Fin (S + 1))
    (h : Fin (H + 1)) : ℚ :=
  let score : Fin (S + 1) → Fin (H + 1) → ℚ := fun s2 h2 =>
    let raw := ∑ j,
      B.sigmoid ((∑ i, x_synset_embeddings x s2 h2 i * w.input_hyp_projector i j) +
        (∑ i, h_tm1 i * w.context_hyp_projector i j)) * w.hyp_scorer j
    match mi with
    | none => raw
    | some m => if m s2 h2 then raw else 0
  B.exp (score s h) / ∑ s2, ∑ h2, B.exp (score s2 h2)

/-- Computable surrogate for the backend exponential: positive and strictly
increasing everywhere, agreeing with the exponential at 0. -/
def myExp (q : ℚ) : ℚ := if 0 ≤ q then 1 + q else 1 / (1 - q)

/-- Computable surrogate for the backend sigmoid, shaped like the logistic
function over the surrogate exponential. -/
def mySigmoid (q : ℚ) : ℚ := 1 / (1 + myExp (-q))

/-- Default value of the backend fuzz factor `K.epsilon()`. -/
def kEpsilon : ℚ := 1 / 10000000

/-- Concrete backend over the surrogate functions with the default fuzz
factor, used to evaluate the model on concrete inputs.  At every point the
concrete evaluations below read the exponential (namely 0, where both the
surrogate and the exponential give 1), it agrees with the real backend. -/
def concreteBackend : Backend := ⟨myExp, mySigmoid, kEpsilon⟩

/-- Concrete backend with a zero fuzz factor — the ε → 0 idealisation of
the floating-point `K.epsilon()` guard. -/
def idealBackend : Backend := ⟨myExp, mySigmoid, 0⟩

/-- Zero attention weights at embedding dim 1, output dim 1. -/
def zeroWeights : AttnWeights 1 1 := ⟨fun _ _ => 0, fun _ _ => 0, fun _ => 0⟩

theorem bit_nonneg (b : Bool) : 0 ≤ bit b := by cases b <;> simp [bit]

theorem bit_eq_zero_iff (b : Bool) : bit b = 0 ↔ b = false := by
  cases b <;> simp [bit]

theorem sum_bit_eq_zero_iff {n : ℕ} (f : Fin n → Bool) :
    (∑ i, bit (f i)) = 0 ↔ ∀ i, f i = false := by
  rw [Finset.sum_eq_zero_iff_of_nonneg fun i _ => bit_nonneg (f i)]
  simp [bit_eq_zero_iff]

theorem sense_mask_eq_zero_iff (m : Mask S H) (s : Fin (S + 1)) :
    sense_mask m s = 0 ↔ ∀ h, m s h = false :=
  sum_bit_eq_zero_iff fun h => m s h

theorem sense_mask_ne_zero_iff (m : Mask S H) (s : Fin (S + 1)) :
    sense_mask m s ≠ 0 ↔ ∃ h, m s h = true := by
  rw [Ne, sense_mask_eq_zero_iff]
  push_neg
  simp

theorem reduced_mask_entry_eq_zero_iff (m : Mask S H) :
    reduced_mask_entry m = 0 ↔ ∀ s h, m s h = false := by
  unfold reduced_mask_entry
  rw [Finset.sum_eq_zero_iff_of_nonneg
    fun s _ => Finset.sum_nonneg fun h _ => bit_nonneg (m s h)]
  simp [sum_bit_eq_zero_iff]

theorem myExp_pos (q : ℚ) : 0 < myExp q := by
  unfold myExp
  by_cases h : 0 ≤ q
  · rw [if_pos h]
    linarith
  · rw [if_neg h]
    push_neg at h
    exact div_pos one_pos (by linarith)

theorem myExp_ne_zero (q : ℚ) : myExp q ≠ 0 := ne_of_gt (myExp_pos q)

theorem myExp_strictMono : StrictMono myExp := by
  intro a b hab
  unfold myExp
  by_cases ha : 0 ≤ a
  · rw [if_pos ha, if_pos (le_of_lt (lt_of_le_of_lt ha hab))]
    linarith
  · push_neg at ha
    rw [if_neg (not_le.mpr ha)]
    by_cases hb : 0 ≤ b
    · rw [if_pos hb]
      have h1 : 1 / (1 - a) < 1 := by
        rw [div_lt_one (by linarith)]
        linarith
      linarith
    · push_neg at hb
      rw [if_neg (not_le.mpr hb)]
      exact one_div_lt_one_div_of_lt (by linarith) (by linarith)

/-- Uniform-mode hypernym attention in closed form: the mask bit of the
cell (weight 1 where unmasked, 0 where masked). -/
theorem hyp_attention_uniform_eq (B : Backend) (w : AttnWeights D O)
    (x : Input S H D) (h_tm1 : Fin O → ℚ) (m : Mask S H)
    (s : Fin (S + 1)) (h : Fin (H + 1)) :
    hyp_attention B false w x h_tm1 (some m) s h =
      if m s h then 1 else 0 := rfl

/-- Learned-mode hypernym attention in closed form: the softmax of the
masked scores taken jointly over the whole (sense, hyp) grid. -/
theorem hyp_attention_learned_eq (B : Backend) (w : AttnWeights D O)
    (x : Input S H D) (h_tm1 : Fin O → ℚ) (mi : Option (Mask S H))
    (s : Fin (S + 1)) (h : Fin (H + 1)) :
    hyp_attention B true w x h_tm1 mi s h =
      B.exp (masked_hyp_scores B w x h_tm1 mi s h) /
        ∑ s2, ∑ h2, B.exp (masked_hyp_scores B w x h_tm1 mi s2 h2) := by
  show softmax B (flatten_grid (masked_hyp_scores B w x h_tm1 mi))
      (finProdFinEquiv (s, h)) = _
  unfold softmax flatten_grid
  rw [Equiv.symm_apply_apply]
  congr 1
  rw [Equiv.sum_comp (finProdFinEquiv.symm)
    (fun p : Fin (S + 1) × Fin (H + 1) =>
      B.exp (masked_hyp_scores B w x h_tm1 mi p.1 p.2))]
  exact Fintype.sum_prod_type ..

/-- Unfolding of the sense scores in the masked case. -/
theorem sense_scores_some (B : Backend) (x : Input S H D) (m : Mask S H)
    (k : Fin (S + 1)) :
    sense_scores B x (some m) k =
      if sense_mask m k ≠ 0 then raw_sense_score B (sense_parameters x) k
      else 0 := rfl

/-- Fully masked senses get sense probability zero, for any fuzz factor. -/
theorem sense_probabilities_masked_zero (B : Backend) (x : Input S H D)
    (m : Mask S H) (s : Fin (S + 1)) (hs : sense_mask m s = 0) :
    sense_probabilities B x (some m) s = 0 := by
  unfold sense_probabilities
  rw [sense_scores_some, if_neg (not_not_intro hs), zero_div]

/-- With a positive exponential, a positive sense prior, a zero fuzz factor
and at least one unmasked cell, the sense probabilities sum to one. -/
theorem sum_sense_probabilities_eq_one (B : Backend) (x : Input S H D)
    (m : Mask S H) (hexp : ∀ q, 0 < B.exp q) (hlam : 0 < sense_parameters x)
    (heps : B.epsilon = 0) (hex : ∃ s h, m s h = true) :
    ∑ k, sense_probabilities B x (some m) k = 1 := by
  unfold sense_probabilities
  rw [← Finset.sum_div, heps, add_zero]
  apply div_self
  obtain ⟨s0, h0, hm0⟩ := hex
  refine ne_of_gt (Finset.sum_pos' (fun k _ => ?_) ⟨s0, Finset.mem_univ s0, ?_⟩)
  · rw [sense_scores_some]
    by_cases hk : sense_mask m k ≠ 0
    · rw [if_pos hk]
      exact le_of_lt (mul_pos hlam (hexp _))
    · rw [if_neg hk]
  · rw [sense_scores_some, if_pos ((sense_mask_ne_zero_iff m s0).mpr ⟨h0, hm0⟩)]
    exact mul_pos hlam (hexp _)

/-- With a positive exponential every cell of the learned attention grid is
positive — in particular masked cells, whose zeroed score still contributes
its exponential to the joint softmax. -/
theorem hyp_attention_learned_pos (B : Backend) (w : AttnWeights D O)
    (x : Input S H D) (h_tm1 : Fin O → ℚ) (mi : Option (Mask S H))
    (s : Fin (S + 1)) (h : Fin (H + 1)) (hexp : ∀ q, 0 < B.exp q) :
    0 < hyp_attention B true w x h_tm1 mi s h := by
  rw [hyp_attention_learned_eq]
  exact div_pos (hexp _)
    (Finset.sum_pos
      (fun s2 _ => Finset.sum_pos (fun h2 _ => hexp _) Finset.univ_nonempty)
      Finset.univ_nonempty)

/-- Uniform-mode attention rows sum to the summed mask row. -/
theorem sum_hyp_attention_uniform (B : Backend) (w : AttnWeights D O)
    (x : Input S H D) (h_tm1 : Fin O → ℚ) (m : Mask S H) (s : Fin (S + 1)) :
    ∑ h, hyp_attention B false w x h_tm1 (some m) s h = sense_mask m s := by
  unfold sense_mask bit
  exact Finset.sum_congr rfl fun h _ => hyp_attention_uniform_eq B w x h_tm1 m s h

/-- With a zero fuzz factor, the joint grid sums to the total sense
probability mass whenever every sense either has a nonzero attention row or
carries zero probability. -/
theorem sum_sense_hyp_attention_eq_sum_prob (B : Backend) (useAtt : Bool)
    (w : AttnWeights D O) (x : Input S H D) (h_tm1 : Fin O → ℚ) (m : Mask S H)
    (heps : B.epsilon = 0)
    (hrows : ∀ s, (∑ h, hyp_attention B useAtt w x h_tm1 (some m) s h) ≠ 0 ∨
      sense_probabilities B x (some m) s = 0) :
    ∑ s, ∑ h, sense_hyp_attention B useAtt w x h_tm1 (some m) s h =
      ∑ k, sense_probabilities B x (some m) k := by
  refine Finset.sum_congr rfl fun s _ => ?_
  unfold sense_hyp_attention hyp_given_sense_attention
  rw [← Finset.sum_mul, ← Finset.sum_div, heps, add_zero]
  rcases hrows s with hrow | hp0
  · rw [div_self hrow, one_mul]
  · rw [hp0, mul_zero]

/-- C4 (amended): with one sense, one hypernym slot, no masking, a nonzero
sense-prior scalar, a nowhere-zero backend exponential and a zero fuzz
constant (the ε → 0 idealisation of `K.epsilon()`), the effective input
vector equals the single hypernym embedding exactly, in both attention
modes. -/
theorem c4_amended_degenerate_identity (B : Backend) (useAtt : Bool)
    (w : AttnWeights D O) (x : Input 0 0 D) (h_tm1 : Fin O → ℚ)
    (heps : B.epsilon = 0) (hexp : ∀ q, B.exp q ≠ 0)
    (hlam : sense_parameters x ≠ 0) :
    lstm_input_t B useAtt w x h_tm1 none =
      fun i => x_synset_embeddings x 0 0 i := by
  have hatt : hyp_attention B useAtt w x h_tm1 none 0 0 = 1 := by
    cases useAtt
    · rfl
    · rw [hyp_attention_learned_eq, Fin.sum_univ_one, Fin.sum_univ_one]
      exact div_self (hexp _)
  have hprob : sense_probabilities B x none 0 = 1 := by
    unfold sense_probabilities
    rw [Fin.sum_univ_one, heps, add_zero]
    exact div_self (mul_ne_zero hlam (hexp _))
  have hgs : hyp_given_sense_attention B useAtt w x h_tm1 none 0 0 = 1 := by
    unfold hyp_given_sense_attention
    rw [Fin.sum_univ_one, hatt, heps, add_zero, div_one]
  have hjoint : sense_hyp_attention B useAtt w x h_tm1 none 0 0 = 1 := by
    unfold sense_hyp_attention
    rw [hgs, hprob, mul_one]
  funext i
  unfold lstm_input_t
  rw [Fin.sum_univ_one, Fin.sum_univ_one, hjoint, mul_one]
  rfl

/-- C4 witness: the amended degenerate identity evaluated at a concrete
instance — one sense, one hyp, embedding dim 1, embedding value 1, prior
scalar 1, learned mode, zero weights, ε → 0 idealisation. -/
theorem c4_witness :
    lstm_input_t idealBackend true zeroWeights
        (fun _ _ _ => (1 : ℚ) : Input 0 0 1) (fun _ => 0) none =
      fun i => x_synset_embeddings (fun _ _ _ => (1 : ℚ) : Input 0 0 1) 0 0 i :=
  c4_amended_degenerate_identity idealBackend true zeroWeights
    (fun _ _ _ => (1 : ℚ)) (fun _ => 0) rfl (fun q => myExp_ne_zero q)
    (by show (1 : ℚ) ≠ 0; norm_num)

/-- C4 counterexample: the identity does not hold for every sense-prior
scalar on the code as written: at prior `lam = 0` (single sense, single
unmasked hyp, embedding value 1, uniform mode, default fuzz factor) the
computed effective input vector is 0 while the single embedding is 1. -/
theorem c4_counterexample :
    lstm_input_t concreteBackend false zeroWeights
        (fun _ _ i => if (i : ℕ) = 1 then 0 else 1 : Input 0 0 1)
        (fun _ => 0) none ≠
      fun i => x_synset_embeddings
        (fun _ _ i => if (i : ℕ) = 1 then 0 else 1 : Input 0 0 1) 0 0 i := by
  intro hcontra
  have h0 := congrFun hcontra 0
  have hprob : sense_probabilities concreteBackend
      (fun _ _ i => if (i : ℕ) = 1 then 0 else 1 : Input 0 0 1) none 0 = 0 := by
    have hlam : sense_parameters
        (fun _ _ i => if (i : ℕ) = 1 then 0 else 1 : Input 0 0 1) = 0 := by
      show (if ((Fin.last 1 : Fin 2) : ℕ) = 1 then (0 : ℚ) else 1) = 0
      simp
    have hs : sense_scores concreteBackend
        (fun _ _ i => if (i : ℕ) = 1 then 0 else 1 : Input 0 0 1) none 0 = 0 := by
      show raw_sense_score concreteBackend (sense_parameters _) _ = 0
      unfold raw_sense_score
      rw [hlam, zero_mul]
    unfold sense_probabilities
    rw [hs, zero_div]
  unfold lstm_input_t at h0
  rw [Fin.sum_univ_one, Fin.sum_univ_one] at h0
  unfold sense_hyp_attention at h0
  rw [hprob, mul_zero, mul_zero] at h0
  have hemb : x_synset_embeddings
      (fun _ _ i => if (i : ℕ) = 1 then 0 else 1 : Input 0 0 1) 0 0 0 = 1 := by
    show (if (((0 : Fin 1).castSucc : Fin 2) : ℕ) = 1 then (0 : ℚ) else 1) = 1
    simp
  rw [hemb] at h0
  exact absurd h0 (by norm_num)

/-- C5 counterexample: with two senses of one hypernym slot each, both
unmasked, the derived output-mask entry of the timestep is the sum 2 — not
the 0/1 boolean flag a logical any-true reduction would yield (which would
be 1 here). -/
theorem c5_counterexample :
    compute_mask true (some (fun (_ : Fin 2) (_ : Fin 1) => true)) = some 2 ∧
    ((2 : ℚ) ≠ 1 ∧ (2 : ℚ) ≠ 0) := by
  refine ⟨?_, by norm_num, by norm_num⟩
  simp [compute_mask, reduced_mask_entry, bit]

/-- C5 (amended): when returning sequences with a mask supplied, the derived
per-(sample, timestep) entry is the sum of the mask bits over the sense and
hyp axes — a count, not a 0/1 boolean — and it is nonzero (truthy) if and
only if the timestep has at least one unmasked hypernym slot. -/
theorem c5_amended_mask_reduction (m : Mask S H) :
    compute_mask true (some m) = some (reduced_mask_entry m) ∧
    (reduced_mask_entry m ≠ 0 ↔ ∃ s h, m s h = true) := by
  refine ⟨rfl, ?_⟩
  rw [Ne, reduced_mask_entry_eq_zero_iff]
  push_neg
  simp

/-- C2: for every backend, input, mask and sense index k, the sense
probability equals the raw exponential-distribution score
`lam * exp(-lam * k)` — with `lam` read from the input's canonical
(sense 0, hyp 0, last) position and the score zeroed exactly when sense k is
fully masked — divided by the sum of those scores over all senses plus the
fuzz constant. -/
theorem c2_sense_probability_formula (B : Backend) (x : Input S H D)
    (m : Mask S H) (k : Fin (S + 1)) :
    sense_probabilities B x (some m) k =
      (if ∃ h, m k h = true then
        sense_parameters x * B.exp (-(sense_parameters x * ((k : ℕ) : ℚ)))
       else 0) /
      ((∑ j, if ∃ h, m j h = true then
        sense_parameters x * B.exp (-(sense_parameters x * ((j : ℕ) : ℚ)))
       else 0) + B.epsilon) := by
  have hs : ∀ j : Fin (S + 1), sense_scores B x (some m) j =
      if ∃ h, m j h = true then
        sense_parameters x * B.exp (-(sense_parameters x * ((j : ℕ) : ℚ)))
      else 0 := by
    intro j
    have hunfold : sense_scores B x (some m) j =
        if sense_mask m j ≠ 0 then raw_sense_score B (sense_parameters x) j
        else 0 := rfl
    rw [hunfold]
    by_cases hj : sense_mask m j ≠ 0
    · rw [if_pos hj, if_pos ((sense_mask_ne_zero_iff m j).mp hj)]
      rfl
    · rw [if_neg hj, if_neg fun hex => hj ((sense_mask_ne_zero_iff m j).mpr hex)]
  unfold sense_probabilities
  rw [hs k]
  congr 2
  exact Finset.sum_congr rfl fun j _ => hs j

/-- C3: in learned mode the hypernym attention grid equals the pipeline the
spec describes — project each hypernym embedding by the input-projection
matrix, add the hidden-state projection broadcast over all cells, apply the
sigmoid, score each cell by dot product with the scoring vector, zero masked
cells' scores, then one softmax jointly over all (sense, hyp) cells. -/
theorem c3_learned_attention_pipeline (B : Backend) (w : AttnWeights D O)
    (x : Input S H D) (h_tm1 : Fin O → ℚ) (mi : Option (Mask S H))
    (s : Fin (S + 1)) (h : Fin (H + 1)) :
    hyp_attention B true w x h_tm1 mi s h =
      hyp_attention_spec B w x h_tm1 mi s h := by
  rw [hyp_attention_learned_eq]
  rfl

/-- C6 counterexample: a 5-d input shape whose sense and hyp dimensions
(5, 4) disagree with the configured `num_senses = 2`, `num_hyps = 3` is
accepted by `build` without any configuration error — no build/validation
failure occurs. -/
theorem c6_counterexample :
    build ⟨7, 2, 3, true⟩ (32, 10, 5, 4, 101) =
      Except.ok ⟨100, (32, 10, 5, 4, 101), some ((100, 7), (7, 7), 7)⟩ ∧
    ((5 : ℕ) ≠ 2 ∧ (4 : ℕ) ≠ 3) := ⟨rfl, by decide⟩

/-- C6 (amended): `build` never fails: it performs no comparison of the
configured `num_senses` / `num_hyps` with the input shape and derives the
embedding dimension from the shape itself, so a disagreeing input is not
detected at build/validation time. -/
theorem c6_amended_build_never_fails (cfg : OntoConfig)
    (input_shape : ℕ × ℕ × ℕ × ℕ × ℕ) :
    (build cfg input_shape).isOk = true := rfl

/-- C8: constructing with the unsupported `consume_less = "cpu"` mode does
not fail: the configuration is downgraded to `"mem"` at construction and a
warning is flagged, after which the stored mode equals the one obtained by
requesting `"mem"` directly (which warns nothing). -/
theorem c8_consume_less_downgrade :
    init_consume_less "cpu" = ⟨"mem", true⟩ ∧
    (init_consume_less "cpu").consume_less = (init_consume_less "mem").consume_less ∧
    (init_consume_less "mem").warned = false := by decide

/-- C7: with a positive sense-prior scalar, a positive and strictly
increasing backend exponential, a nonnegative fuzz constant, and every slot
unmasked, the sense probabilities are non-increasing in the sense index,
and in fact strictly decreasing. -/
theorem c7_sense_probabilities_decreasing (B : Backend) (x : Input S H D)
    (m : Mask S H) (hlam : 0 < sense_parameters x)
    (hpos : ∀ q, 0 < B.exp q) (hmono : StrictMono B.exp)
    (heps : 0 ≤ B.epsilon) (hm : ∀ s h, m s h = true) :
    (∀ j k : Fin (S + 1), j ≤ k →
      sense_probabilities B x (some m) k ≤ sense_probabilities B x (some m) j) ∧
    (∀ j k : Fin (S + 1), j < k →
      sense_probabilities B x (some m) k < sense_probabilities B x (some m) j) := by
  have hscore : ∀ j : Fin (S + 1), sense_scores B x (some m) j =
      raw_sense_score B (sense_parameters x) j := by
    intro j
    have hunfold : sense_scores B x (some m) j =
        if sense_mask m j ≠ 0 then raw_sense_score B (sense_parameters x) j
        else 0 := rfl
    rw [hunfold, if_pos ((sense_mask_ne_zero_iff m j).mpr ⟨0, hm j 0⟩)]
  have hrawpos : ∀ j : Fin (S + 1), 0 < raw_sense_score B (sense_parameters x) j :=
    fun j => mul_pos hlam (hpos _)
  have hD : 0 < (∑ j, sense_scores B x (some m) j) + B.epsilon := by
    apply add_pos_of_pos_of_nonneg _ heps
    apply Finset.sum_pos _ Finset.univ_nonempty
    intro j _
    rw [hscore j]
    exact hrawpos j
  have hstrict : ∀ j k : Fin (S + 1), j < k →
      sense_probabilities B x (some m) k < sense_probabilities B x (some m) j := by
    intro j k hjk
    unfold sense_probabilities
    rw [div_lt_div_iff_of_pos_right hD]
    rw [hscore j, hscore k]
    unfold raw_sense_score
    apply mul_lt_mul_of_pos_left _ hlam
    apply hmono
    apply neg_lt_neg
    apply mul_lt_mul_of_pos_left _ hlam
    exact_mod_cast Fin.lt_def.mp hjk
  refine ⟨?_, hstrict⟩
  intro j k hjk
  rcases lt_or_eq_of_le hjk with hlt | heq
  · exact le_of_lt (hstrict j k hlt)
  · rw [heq]

/-- C7 witness: at the spec's check instance `lam = 1`, `num_senses = 3`
(with the surrogate exponential and the default fuzz factor, all slots
unmasked) the three sense probabilities strictly decrease. -/
theorem c7_witness :
    sense_probabilities ⟨myExp, mySigmoid, kEpsilon⟩
        (fun _ _ _ => (1 : ℚ) : Input 2 0 0) (some fun _ _ => true) 2 <
      sense_probabilities ⟨myExp, mySigmoid, kEpsilon⟩
        (fun _ _ _ => (1 : ℚ) : Input 2 0 0) (some fun _ _ => true) 1 ∧
    sense_probabilities ⟨myExp, mySigmoid, kEpsilon⟩
        (fun _ _ _ => (1 : ℚ) : Input 2 0 0) (some fun _ _ => true) 1 <
      sense_probabilities ⟨myExp, mySigmoid, kEpsilon⟩
        (fun _ _ _ => (1 : ℚ) : Input 2 0 0) (some fun _ _ => true) 0 :=
  ⟨(c7_sense_probabilities_decreasing ⟨myExp, mySigmoid, kEpsilon⟩
      (fun _ _ _ => (1 : ℚ)) (fun _ _ => true)
      (by show (0 : ℚ) < 1; norm_num) (fun q => myExp_pos q) myExp_strictMono
      (by unfold kEpsilon; norm_num) (fun s h => rfl)).2 1 2 (by decide),
   (c7_sense_probabilities_decreasing ⟨myExp, mySigmoid, kEpsilon⟩
      (fun _ _ _ => (1 : ℚ)) (fun _ _ => true)
      (by show (0 : ℚ) < 1; norm_num) (fun q => myExp_pos q) myExp_strictMono
      (by unfold kEpsilon; norm_num) (fun s h => rfl)).2 0 1 (by decide)⟩

/-- C1 (amended): for a positive backend exponential and a positive
sense-prior scalar: in uniform mode every masked cell carries zero joint
attention; a fully masked timestep's grid sums to 0 in both modes (for any
fuzz factor); and in the ε → 0 idealisation of `K.epsilon()`, when at least
one cell is unmasked, the joint grid sums to 1 — over the unmasked cells in
uniform mode (masked cells being zero), but only over the full grid in
learned mode, where masked cells of partially masked senses can carry
nonzero weight. -/
theorem c1_amended_attention_normalisation (B : Backend) (useAtt : Bool)
    (w : AttnWeights D O) (x : Input S H D) (h_tm1 : Fin O → ℚ) (m : Mask S H)
    (hexp : ∀ q, 0 < B.exp q) (hlam : 0 < sense_parameters x) :
    (∀ s h, m s h = false →
      sense_hyp_attention B false w x h_tm1 (some m) s h = 0) ∧
    ((∀ s h, m s h = false) →
      ∑ s, ∑ h, sense_hyp_attention B useAtt w x h_tm1 (some m) s h = 0) ∧
    (B.epsilon = 0 → (∃ s h, m s h = true) →
      (∑ s, ∑ h, sense_hyp_attention B false w x h_tm1 (some m) s h = 1) ∧
      (∑ s, ∑ h, sense_hyp_attention B true w x h_tm1 (some m) s h = 1)) := by
  refine ⟨?_, ?_, ?_⟩
  · intro s h hm
    unfold sense_hyp_attention hyp_given_sense_attention
    rw [hyp_attention_uniform_eq,
      if_neg (by rw [hm]; exact Bool.false_ne_true), zero_div, zero_mul]
  · intro hall
    refine Finset.sum_eq_zero fun s _ => Finset.sum_eq_zero fun h _ => ?_
    unfold sense_hyp_attention
    rw [sense_probabilities_masked_zero B x m s
      ((sense_mask_eq_zero_iff m s).mpr fun h2 => hall s h2), mul_zero]
  · intro heps hex
    have hprob_sum := sum_sense_probabilities_eq_one B x m hexp hlam heps hex
    constructor
    · rw [sum_sense_hyp_attention_eq_sum_prob B false w x h_tm1 m heps ?_,
        hprob_sum]
      intro s
      by_cases hs : sense_mask m s = 0
      · exact Or.inr (sense_probabilities_masked_zero B x m s hs)
      · refine Or.inl ?_
        rw [sum_hyp_attention_uniform]
        exact hs
    · rw [sum_sense_hyp_attention_eq_sum_prob B true w x h_tm1 m heps ?_,
        hprob_sum]
      intro s
      refine Or.inl (ne_of_gt ?_)
      exact Finset.sum_pos
        (fun h _ => hyp_attention_learned_pos B w x h_tm1 (some m) s h hexp)
        Finset.univ_nonempty

/-- C1 witness: the amended normalisation instantiated — one sense, one hyp,
all unmasked, prior 1, surrogate exponential, zero fuzz factor: the joint
grid sums to 1 in both modes. -/
theorem c1_witness :
    (∑ s, ∑ h, sense_hyp_attention idealBackend false zeroWeights
      (fun _ _ _ => (1 : ℚ) : Input 0 0 1) (fun _ => 0)
      (some fun _ _ => true) s h) = 1 ∧
    (∑ s, ∑ h, sense_hyp_attention idealBackend true zeroWeights
      (fun _ _ _ => (1 : ℚ) : Input 0 0 1) (fun _ => 0)
      (some fun _ _ => true) s h) = 1 :=
  (c1_amended_attention_normalisation idealBackend true zeroWeights
    (fun _ _ _ => (1 : ℚ)) (fun _ => 0) (fun _ _ => true)
    (fun q => myExp_pos q) (by show (0 : ℚ) < 1; norm_num)).2.2 rfl ⟨0, 0, rfl⟩

/-- C1 counterexample: in learned mode a masked cell does not carry zero
attention weight — with one sense of two hypernym slots, the second slot
masked, zero scoring weights, prior 1 and the default fuzz factor, the
masked cell's zeroed score still enters the joint softmax with weight
`exp 0`, so its joint attention is strictly positive. -/
theorem c1_counterexample :
    (fun (_ : Fin 1) (h : Fin 2) => h == 0) 0 1 = false ∧
    sense_hyp_attention concreteBackend true zeroWeights
      (fun _ _ _ => (1 : ℚ) : Input 0 1 1) (fun _ => 0)
      (some fun _ h => h == 0) 0 1 ≠ 0 := by
  refine ⟨rfl, ne_of_gt ?_⟩
  unfold sense_hyp_attention hyp_given_sense_attention
  apply mul_pos
  · apply div_pos
    · exact hyp_attention_learned_pos concreteBackend zeroWeights
        (fun _ _ _ => (1 : ℚ)) (fun _ => 0) (some fun _ h => h == 0) 0 1
        (fun q => myExp_pos q)
    · apply add_pos_of_pos_of_nonneg
      · exact Finset.sum_pos
          (fun h2 _ => hyp_attention_learned_pos concreteBackend zeroWeights
            (fun _ _ _ => (1 : ℚ)) (fun _ => 0) (some fun _ h => h == 0) 0 h2
            (fun q => myExp_pos q))
          Finset.univ_nonempty
      · show (0 : ℚ) ≤ kEpsilon
        unfold kEpsilon
        norm_num
  · unfold sense_probabilities
    apply div_pos
    · rw [sense_scores_some,
        if_pos ((sense_mask_ne_zero_iff _ _).mpr ⟨0, rfl⟩)]
      exact mul_pos (by show (0 : ℚ) < 1; norm_num) (myExp_pos _)
    · apply add_pos_of_pos_of_nonneg
      · refine Finset.sum_pos' (fun k _ => ?_) ⟨0, Finset.mem_univ 0, ?_⟩
        · rw [sense_scores_some]
          by_cases hk : sense_mask (fun _ h => h == 0 : Mask 0 1) k ≠ 0
          · rw [if_pos hk]
            exact le_of_lt (mul_pos (by show (0 : ℚ) < 1; norm_num) (myExp_pos _))
          · rw [if_neg hk]
        · rw [sense_scores_some,
            if_pos ((sense_mask_ne_zero_iff _ _).mpr ⟨0, rfl⟩)]
          exact mul_pos (by show (0 : ℚ) < 1; norm_num) (myExp_pos _)
      · show (0 : ℚ) ≤ kEpsilon
        unfold kEpsilon
        norm_num

/-- C9: two-run noninterference for masked embeddings — with the same cell,
backend, mode, weights, prior state and mask, two step inputs that agree on
every component of unmasked slots and on the trailing sense-prior scalar of
every slot (i.e. that differ at most in the embedding components of slots
whose mask bit is 0) produce identical step results: the same emitted
output and the same new hidden and cell state.  The agreement hypothesis
deliberately covers the sense-prior scalar (last component) of the
canonical slot even when that slot is masked, since the code reads it
unconditionally. -/
theorem c9_masked_noninterference (cell : Cell D O) (B : Backend)
    (useAtt returnAtt : Bool) (w : AttnWeights D O) (x1 x2 : Input S H D)
    (h_tm1 c_tm1 : Fin O → ℚ) (m : Mask S H)
    (hagree : ∀ s h (i : Fin (D + 1)), (m s h = true ∨ (i : ℕ) = D) →
      x1 s h i = x2 s h i) :
    step cell B useAtt returnAtt w x1 h_tm1 c_tm1 (some m) =
      step cell B useAtt returnAtt w x2 h_tm1 c_tm1 (some m) := by
  have hparam : sense_parameters x1 = sense_parameters x2 :=
    hagree 0 0 (Fin.last D) (Or.inr (Fin.val_last D))
  have hemb : ∀ s h, m s h = true →
      ∀ i, x_synset_embeddings x1 s h i = x_synset_embeddings x2 s h i :=
    fun s h hm i => hagree s h i.castSucc (Or.inl hm)
  have hms : masked_hyp_scores B w x1 h_tm1 (some m) =
      masked_hyp_scores B w x2 h_tm1 (some m) := by
    funext s h
    show (if m s h then hyp_scores B w x1 h_tm1 s h else 0) =
      (if m s h then hyp_scores B w x2 h_tm1 s h else 0)
    by_cases hm : m s h = true
    · rw [if_pos hm, if_pos hm]
      have hproj : ∀ j, input_hyp_projection w x1 s h j =
          input_hyp_projection w x2 s h j := by
        intro j
        unfold input_hyp_projection
        exact Finset.sum_congr rfl fun i _ => by rw [hemb s h hm i]
      unfold hyp_scores hyp_projection
      exact Finset.sum_congr rfl fun j _ => by rw [hproj j]
    · rw [if_neg hm, if_neg hm]
  have hsc : sense_scores B x1 (some m) = sense_scores B x2 (some m) := by
    funext k
    show (if sense_mask m k ≠ 0 then
        raw_sense_score B (sense_parameters x1) k else 0) =
      (if sense_mask m k ≠ 0 then
        raw_sense_score B (sense_parameters x2) k else 0)
    rw [hparam]
  have hprob : sense_probabilities B x1 (some m) =
      sense_probabilities B x2 (some m) := by
    funext k
    unfold sense_probabilities
    rw [hsc]
  have hatt : hyp_attention B useAtt w x1 h_tm1 (some m) =
      hyp_attention B useAtt w x2 h_tm1 (some m) := by
    funext s h
    cases useAtt
    · rw [hyp_attention_uniform_eq, hyp_attention_uniform_eq]
    · rw [hyp_attention_learned_eq, hyp_attention_learned_eq, hms]
  have hjoint : sense_hyp_attention B useAtt w x1 h_tm1 (some m) =
      sense_hyp_attention B useAtt w x2 h_tm1 (some m) := by
    funext s h
    unfold sense_hyp_attention hyp_given_sense_attention
    rw [hatt, hprob]
  have hme : masked_embeddings x1 (some m) = masked_embeddings x2 (some m) := by
    funext s h i
    show (if m s h then x_synset_embeddings x1 s h i else 0) =
      (if m s h then x_synset_embeddings x2 s h i else 0)
    by_cases hm : m s h = true
    · rw [if_pos hm, if_pos hm, hemb s h hm i]
    · rw [if_neg hm, if_neg hm]
  have hinput : lstm_input_t B useAtt w x1 h_tm1 (some m) =
      lstm_input_t B useAtt w x2 h_tm1 (some m) := by
    funext i
    unfold lstm_input_t
    rw [hme, hjoint]
  show (let r := onto_step cell B useAtt w x1 h_tm1 c_tm1 (some m)
    (if returnAtt then StepOutput.attention r.att else StepOutput.hidden r.h,
      (r.h, r.c))) = _
  rw [show onto_step cell B useAtt w x1 h_tm1 c_tm1 (some m) =
      onto_step cell B useAtt w x2 h_tm1 c_tm1 (some m) by
    unfold onto_step
    rw [hinput, hjoint]]
  rfl

/-- C9 witness: concrete two-run instance — one sense with two hypernym
slots, the second slot masked; the two inputs differ (only) in the masked
slot's embedding component, and the step results coincide. -/
theorem c9_witness :
    (∀ (s : Fin 1) (h : Fin 2) (i : Fin 2),
      ((fun (_ : Fin 1) (h : Fin 2) => h == 0) s h = true ∨ (i : ℕ) = 1) →
      (fun (_ : Fin 1) (h : Fin 2) (i : Fin 2) =>
        if h = 1 ∧ i = 0 then (5 : ℚ) else 1) s h i =
      (fun (_ : Fin 1) (h : Fin 2) (i : Fin 2) =>
        if h = 1 ∧ i = 0 then (9 : ℚ) else 1) s h i) ∧
    step (fun inp hp _ => (inp, hp)) concreteBackend true true zeroWeights
        (fun _ h i => if h = 1 ∧ i = 0 then (5 : ℚ) else 1 : Input 0 1 1)
        (fun _ => 0) (fun _ => 0) (some fun _ h => h == 0) =
      step (fun inp hp _ => (inp, hp)) concreteBackend true true zeroWeights
        (fun _ h i => if h = 1 ∧ i = 0 then (9 : ℚ) else 1 : Input 0 1 1)
        (fun _ => 0) (fun _ => 0) (some fun _ h => h == 0) :=
  ⟨by intro s h i hi; fin_cases h <;> fin_cases i <;> simp_all,
   c9_masked_noninterference (fun inp hp _ => (inp, hp)) concreteBackend
     true true zeroWeights
     (fun _ h i => if h = 1 ∧ i = 0 then (5 : ℚ) else 1)
     (fun _ h i => if h = 1 ∧ i = 0 then (9 : ℚ) else 1)
     (fun _ => 0) (fun _ => 0) (fun _ h => h == 0)
     (by intro s h i hi; fin_cases h <;> fin_cases i <;> simp_all)⟩

/-- C10: the `return_attention` flag changes only what each timestep emits
(attention grid versus hidden vector); for every cell, backend, mode,
weights, input/mask sequence and initial state, the sequence of carried
(hidden, cell) states is identical with the flag on or off. -/
theorem c10_return_attention_frame (cell : Cell D O) (B : Backend)
    (useAtt : Bool) (w : AttnWeights D O)
    (xs : List (Input S H D × Option (Mask S H))) (h0 c0 : Fin O → ℚ) :
    carried_states cell B useAtt true w xs h0 c0 =
      carried_states cell B useAtt false w xs h0 c0 := rfl

end OntoLSTM
